import Mathlib

/-!
Verification of the graph-lowering and layout-decision engine
(`torch/_inductor/graph.py`, class `GraphLowering`).

The Python source is shallowly embedded: each method relevant to a claim is
translated into an executable Lean function over explicit state.  Python sets
are modelled as duplicate-free lists built with a membership-checking insert,
Python (ordered) dicts as association lists in insertion order, and Python
exceptions as explicit result constructors.  Helpers whose bodies live in
other modules of the repository (`ir.TensorBox.realize`, `make_fallback`,
the backend registries) are modelled from the specification and marked as
such in their doc comments.
-/

/-- Membership-checking insert for `List String`, modelling `set.add` on a
Python set of strings: inserting an element already present is a no-op. -/
def insertStr (s : String) (l : List String) : List String :=
  if s ∈ l then l else s :: l

/-- Membership-checking insert for `List Nat`, modelling `set.add` on a
Python set (elements identified by numeric ids). -/
def insertNat (n : Nat) (l : List Nat) : List Nat :=
  if n ∈ l then l else n :: l

/-- First-match association-list lookup, modelling a Python dict lookup
`d[k]` that returns `none` when the key is missing. -/
def assocLookup {α : Type} (l : List (String × α)) (k : String) : Option α :=
  match l with
  | [] => none
  | p :: ps => if p.1 = k then some p.2 else assocLookup ps k

/-- Decimal digit character for `d % 10`, used to render numbers the way
Python string interpolation renders a nonnegative `int`. -/
def digitChar (d : Nat) : Char :=
  match d with
  | 0 => '0'
  | 1 => '1'
  | 2 => '2'
  | 3 => '3'
  | 4 => '4'
  | 5 => '5'
  | 6 => '6'
  | 7 => '7'
  | 8 => '8'
  | _ => '9'

/-- Fuel-driven most-significant-first decimal rendering of a natural
number; `fuel ≥ n` guarantees the fallback branch is never reached. -/
def natToDecAux : Nat → Nat → List Char
  | 0, n => [digitChar (n % 10)]
  | fuel + 1, n =>
    if n < 10 then [digitChar n]
    else natToDecAux fuel (n / 10) ++ [digitChar (n % 10)]

/-- Decimal rendering of a natural number as Python's `str(n)` renders a
nonnegative `int`. -/
def natToDec (n : Nat) : String :=
  String.mk (natToDecAux n n)

/-- Value of a list of decimal digit characters, most significant first.
Used only to prove that `natToDec` is injective. -/
def decVal (l : List Char) : Nat :=
  l.foldl (fun a c => 10 * a + (c.toNat - 48)) 0

/-- State of `GraphLowering` relevant to `warn_fallback`: the
`_warned_fallback` set of operator names and the chronological list of
perf-hint messages emitted through `perf_hint_log.info`. -/
structure WarnState where
  warned : List String
  hintLog : List String
deriving DecidableEq

/-- The `_warned_fallback` set as initialised in `GraphLowering.__init__`:
it is pre-seeded with `"aten.convolution_backward"`. -/
def initWarnState : WarnState :=
  { warned := ["aten.convolution_backward"], hintLog := [] }

/-- `GraphLowering.warn_fallback`: if the name has not been warned about,
add it to the warned set and emit one perf hint. -/
def warn_fallback (st : WarnState) (name : String) : WarnState :=
  if name ∈ st.warned then st
  else { warned := insertStr name st.warned, hintLog := st.hintLog ++ [name] }

/-- Run a whole sequence of `warn_fallback` calls from a starting state. -/
def runWarnCalls (st : WarnState) (calls : List String) : WarnState :=
  calls.foldl warn_fallback st

/-- State of `GraphLowering` relevant to `mark_buffer_mutated`:
`mutated_buffers` (a set of names), `name_to_users` (buffer name to the IR
nodes reading it, nodes identified by numeric ids), and the set of node ids
that have been realized. -/
structure MutState where
  mutatedBuffers : List String
  nameToUsers : List (String × List Nat)
  realized : List Nat
deriving DecidableEq

/-- Modelled from the spec: `ir.IRNode.realize` ("force a lazily-expressed
computation to be written into a concrete, named buffer") lives in `ir.py`,
outside the given source; we model only its observable effect of marking
the node materialized, recording the node id in the realized set. -/
def realizeNode (realized : List Nat) (node : Nat) : List Nat :=
  insertNat node realized

/-- `GraphLowering.mark_buffer_mutated`: add the name to `mutated_buffers`;
if the name has recorded users, realize every one of them.  In the source
the set-add precedes the reader lookup; since the add does not touch
`name_to_users`, the two orders are observably identical. -/
def mark_buffer_mutated (st : MutState) (name : String) : MutState :=
  match assocLookup st.nameToUsers name with
  | none => { st with mutatedBuffers := insertStr name st.mutatedBuffers }
  | some users =>
    { st with mutatedBuffers := insertStr name st.mutatedBuffers,
              realized := users.foldl realizeNode st.realized }

/-- An `torch._ops.OpOverload` target as seen by
`GraphLowering.call_function`: its base name (`target.name().split(".")[0]`),
its overload name, and whether it carries the
`_inductor_lowering_function` pass-through marker. -/
structure Target where
  baseName : String
  overload : String
  marker : Bool
deriving DecidableEq

/-- Configuration consulted by `call_function`: the static
`FALLBACK_ALLOW_LIST` of base names, the `config.implicit_fallbacks` flag,
and the decomposition-table lookup `get_decompositions([target]) != []`. -/
structure LowerConfig where
  allowList : List String
  implicitFallbacks : Bool
  hasDecomp : Target → Bool

/-- Outcome of one `call_function` dispatch.  `rawExc` is an exception
escaping a marker pass-through call (not wrapped); `loweringExc` is the
`LoweringException` wrapper carrying the original cause, the offending
operator and the arguments. -/
inductive CFOutcome (V E : Type) where
  | ok (v : V)
  | rawExc (e : E)
  | missingWithDecomp (t : Target)
  | missingWithoutDecomp (t : Target)
  | loweringExc (e : E) (t : Target) (args : List V)
deriving DecidableEq

/-- Modelled from the spec: `make_fallback` (from `.lowering`, outside the
given source) "register[s] a fallback handler on the fly", mutating the
global lowering registry for the remainder of the run.  We model the
registry as the set of registered targets. -/
def make_fallback (reg : List Target) (t : Target) : List Target :=
  if t ∈ reg then reg else t :: reg

/-- The `try`-wrapped call `lowerings[target](*args, **kwargs)` in
`call_function`: a raised exception is re-raised as a `LoweringException`
carrying the cause, the operator and the arguments. -/
def runDispatched {V E : Type} (handler : Target → List V → Except E V)
    (t : Target) (args : List V) : CFOutcome V E :=
  match handler t args with
  | .ok v => .ok v
  | .error e => .loweringExc e t args

/-- `GraphLowering.call_function`, for `OpOverload` targets.  `handler`
models the lowering-registry table of handler bodies (native or fallback);
`reg` is the set of targets currently registered in `lowerings`.  Returns
the outcome together with the registry after the call. -/
def call_function {V E : Type} (cfg : LowerConfig)
    (handler : Target → List V → Except E V) (reg : List Target)
    (t : Target) (args : List V) : CFOutcome V E × List Target :=
  if t.marker then
    match handler t args with
    | .ok v => (.ok v, reg)
    | .error e => (.rawExc e, reg)
  else if t ∈ reg then
    (runDispatched handler t args, reg)
  else if t.baseName ∈ cfg.allowList then
    (runDispatched handler t args, make_fallback reg t)
  else if cfg.implicitFallbacks then
    (runDispatched handler t args, make_fallback reg t)
  else if cfg.hasDecomp t then
    (.missingWithDecomp t, reg)
  else
    (.missingWithoutDecomp t, reg)

/-- True when the outcome is neither `MissingOperatorWithDecomp` nor
`MissingOperatorWithoutDecomp`, i.e. dispatch found a handler. -/
def CFOutcome.notMissing {V E : Type} : CFOutcome V E → Prop
  | .missingWithDecomp _ => False
  | .missingWithoutDecomp _ => False
  | _ => True

/-- One step of the reversed pass of `find_nodes_prefer_channels_last`:
a node joins the set if it is a convolution, or if one of its users is
already in the set.  Nodes are identified by their position in trace
order. -/
def backStep (isConv : Nat → Bool) (users : Nat → List Nat)
    (s : List Nat) (n : Nat) : List Nat :=
  if isConv n then insertNat n s
  else if (users n).any (fun u => u ∈ s) then insertNat n s
  else s

/-- One step of the second, forward pass: every user of a node already in
the set is added to the set. -/
def fwdStep (users : Nat → List Nat) (s : List Nat) (n : Nat) : List Nat :=
  if n ∈ s then (users n).foldl (fun t u => insertNat u t) s
  else s

/-- `GraphLowering.find_nodes_prefer_channels_last` on a graph with `k`
nodes in trace order `0, …, k-1`: a reversed pass collecting convolutions
and transitive producers feeding them, then a forward pass adding all
direct users of nodes already in the set. -/
def find_nodes_prefer_channels_last (k : Nat) (isConv : Nat → Bool)
    (users : Nat → List Nat) : List Nat :=
  let backward := (List.range k).reverse.foldl (backStep isConv users) []
  (List.range k).foldl (fwdStep users) backward

/-- `Reaches users x y` holds when node `y` consumes node `x`'s output,
directly or transitively through intermediate nodes. -/
inductive Reaches (users : Nat → List Nat) : Nat → Nat → Prop where
  | direct {x y : Nat} : y ∈ users x → Reaches users x y
  | indirect {x z y : Nat} : Reaches users x z → y ∈ users z → Reaches users x y

/-- IR value held in a graph-output slot or reached by unwrapping a graph
input at output time: either the original `InputBuffer` placeholder for an
input name, or some other (computed/intermediate) value identified by an
id. -/
inductive IRVal where
  | inputBuf (name : String)
  | computed (id : Nat)
deriving DecidableEq

/-- Replace the first occurrence of `t` in `l` by `r`, modelling
`l[l.index(t)] = r` guarded by `try … except ValueError: pass`: when `t`
does not occur, the list is returned unchanged. -/
def listSetFirst (l : List IRVal) (t r : IRVal) : List IRVal :=
  match l with
  | [] => []
  | x :: xs => if x = t then r :: xs else x :: listSetFirst xs t r

/-- One iteration of the input loop in `GraphLowering.output`.  The
accumulator carries the current `graph_outputs` list and the chronological
list of copy-based mutations performed by
`ir.MutationLayout.realize_into(value, graph_inputs_original[name])`
(recorded as `(input name, intermediate value)`).  An input whose unwrapped
value is still the `InputBuffer` carrying its own name is skipped. -/
def outputRewriteStep (acc : List IRVal × List (String × IRVal))
    (inp : String × IRVal) : List IRVal × List (String × IRVal) :=
  if inp.2 = IRVal.inputBuf inp.1 then acc
  else (listSetFirst acc.1 inp.2 (IRVal.inputBuf inp.1), acc.2 ++ [inp])

/-- The mutated-input rewrite loop of `GraphLowering.output`: fold over the
declared graph inputs in insertion order, starting from the realized
`graph_outputs` list and an empty mutation record. -/
def outputRewrite (inputs : List (String × IRVal)) (outs : List IRVal) :
    List IRVal × List (String × IRVal) :=
  inputs.foldl outputRewriteStep (outs, [])

/-- A `torch.device`: a type string and an optional index. -/
structure Device where
  ty : String
  index : Option Nat
deriving DecidableEq

/-- The tensor metadata consulted by `add_tensor_constant` and
`constant_name`: sizes, strides, dtype (as an opaque code), device, the
MKLDNN-opaque-layout flag, and the flattened element values (as exact
integers, standing for the bit patterns compared by `torch.eq`). -/
structure FakeTensor where
  size : List Nat
  stride : List Nat
  dtype : Nat
  device : Device
  isMkldnn : Bool
  values : List Int
deriving DecidableEq

/-- The per-entry match test in `add_tensor_constant.allocate`:
`not data.is_mkldnn and data.size() == value.size() and data.stride() ==
value.stride() and data.dtype == value.dtype and data.device ==
value.device and torch.eq(data, value).all()`. -/
def tensorsMatch (data v : FakeTensor) : Bool :=
  !data.isMkldnn
    && decide (data.size = v.size)
    && decide (data.stride = v.stride)
    && decide (data.dtype = v.dtype)
    && decide (data.device = v.device)
    && decide (data.values = v.values)

/-- First constant-table entry whose stored tensor matches `data`,
modelling the linear scan over `self.constants.items()`. -/
def findMatchName (constants : List (String × FakeTensor)) (data : FakeTensor) :
    Option String :=
  (constants.find? (fun p => tensorsMatch data p.2)).map (fun p => p.1)

/-- `re.sub(r"[^a-zA-Z0-9_]", "_", name)`: non-identifier characters are
replaced by an underscore. -/
def sanitizeName (s : String) : String :=
  String.mk (s.data.map (fun c => if c.isAlphanum || c = '_' then c else '_'))

/-- The collision loop `while name in self.constants: name =
f"{prefix}_{cnt}"; cnt += 1`, driven by explicit fuel; with
`fuel > number of existing names` the fallback branch is never reached. -/
def collisionLoop (names : List String) (pre : String) : Nat → Nat → String
  | 0, cnt => pre ++ "_" ++ natToDec cnt
  | fuel + 1, cnt =>
    let cand := pre ++ "_" ++ natToDec cnt
    if cand ∈ names then collisionLoop names pre fuel (cnt + 1) else cand

/-- Name allocation after sanitization: keep the sanitized name if free,
else run the numeric-suffix collision loop. -/
def allocFresh (names : List String) (pre : String) : String :=
  if pre ∈ names then collisionLoop names pre (names.length + 1) 0 else pre

/-- The name computed by `add_tensor_constant.allocate` when no existing
entry matches: default `f"constant{len(self.constants)}"` when no name is
suggested, a `constant_` prefix for a leading digit, then sanitization and
collision resolution. -/
def allocateName (constants : List (String × FakeTensor))
    (nameSuggestion : Option String) : String :=
  let name0 := match nameSuggestion with
    | none => "constant" ++ natToDec constants.length
    | some n => n
  let name1 := match name0.data.head? with
    | some c => if c.isDigit then "constant_" ++ name0 else name0
    | none => name0
  allocFresh (constants.map (fun p => p.1)) (sanitizeName name1)

/-- `GraphLowering.add_tensor_constant` (its `allocate` inner function; the
returned `TensorBox` wraps a `ConstantBuffer` carrying exactly the returned
name).  Returns the constant's name and the table after the call; the
`constant_reprs` content-hash bookkeeping has no bearing on naming or
dedup and is omitted. -/
def add_tensor_constant (constants : List (String × FakeTensor))
    (data : FakeTensor) (nameSuggestion : Option String) :
    String × List (String × FakeTensor) :=
  match findMatchName constants data with
  | some n => (n, constants)
  | none =>
    (allocateName constants nameSuggestion,
      constants ++ [(allocateName constants nameSuggestion, data)])

/-- `.to(device)`, as used by `constant_name` to make a per-device copy of
a constant: same metadata and values, new device. -/
def tensorTo (t : FakeTensor) (d : Device) : FakeTensor :=
  { t with device := d }

/-- The derived per-device name
`f"{name}_{device_override.type}{device_override.index or 0}"`. -/
def altConstantName (name : String) (dev : Device) : String :=
  name ++ "_" ++ dev.ty ++ natToDec (dev.index.getD 0)

/-- `GraphLowering.constant_name`: return the name unchanged when the
constant is already on the requested device (or no device is requested);
otherwise copy the constant to the device under the derived name the first
time, cache it in the table, and return the derived name.  `none` is
returned when the named constant does not exist (a `KeyError` in the
source). -/
def constant_name (constants : List (String × FakeTensor)) (name : String)
    (deviceOverride : Option Device) :
    Option (String × List (String × FakeTensor)) :=
  match assocLookup constants name, deviceOverride with
  | none, _ => none
  | some _, none => some (name, constants)
  | some t, some dev =>
    if t.device = dev then some (name, constants)
    else
      let alt := altConstantName name dev
      match assocLookup constants alt with
      | some _ => some (alt, constants)
      | none => some (alt, constants ++ [(alt, tensorTo t dev)])

/-- Concrete CPU device used in witnesses. -/
def cpuDev : Device := { ty := "cpu", index := none }

/-- Concrete `cuda:0` device used in witnesses. -/
def cuda0Dev : Device := { ty := "cuda", index := some 0 }

/-- Concrete non-MKLDNN weight tensor used in witnesses. -/
def wTensor : FakeTensor :=
  { size := [1], stride := [1], dtype := 0, device := cpuDev,
    isMkldnn := false, values := [5] }

/-- Concrete MKLDNN-layout tensor used in the C5 counterexample. -/
def mkldnnTensor : FakeTensor :=
  { size := [2], stride := [1], dtype := 0, device := cpuDev,
    isMkldnn := true, values := [1, 2] }

/-- Concrete tensor used in the C5 witness. -/
def t1Tensor : FakeTensor :=
  { size := [2], stride := [1], dtype := 0, device := cpuDev,
    isMkldnn := false, values := [1, 2] }

/-- Concrete tensor differing from `t1Tensor` in one element. -/
def t2Tensor : FakeTensor :=
  { size := [2], stride := [1], dtype := 0, device := cpuDev,
    isMkldnn := false, values := [1, 3] }

/-- A node of the traced `fx` graph, carrying the metadata consulted by
`decide_layout_opt`: whether its target is `aten.convolution.default` or
one of the two scaled-dot-product-attention overloads, the devices of
`args[0]` and `args[1]`, whether either of those carries free (symbolic)
shape symbols, the group count `args[-1]`, and the first three sizes of the
weight `args[1]`. -/
structure GNode where
  isConvTarget : Bool
  isSdpaTarget : Bool
  inCpu : Bool
  wCpu : Bool
  dynShape : Bool
  groups : Nat
  wSize0 : Nat
  wSize1 : Nat
  wSize2 : Nat
deriving DecidableEq

/-- The `conv_nodes` list comprehension of `decide_layout_opt`: the nodes
whose target is `aten.convolution.default`. -/
def conv_nodes (nodes : List GNode) : List GNode :=
  nodes.filter (fun n => n.isConvTarget)

/-- `GraphLowering.decide_layout_opt`, with the environment flags
(`config.layout_optimization`, the ROCm-with-CUDA combination, and MKLDNN
enabled-and-available) passed explicitly. -/
def decide_layout_opt (layoutOptimization hipCuda mkldnnOn : Bool)
    (nodes : List GNode) : Bool :=
  if !layoutOptimization then false
  else if (conv_nodes nodes).length = 0 then false
  else if hipCuda then false
  else if (conv_nodes nodes).all (fun n => n.inCpu && n.wCpu) && mkldnnOn then true
  else if decide (300 * (conv_nodes nodes).length ≤ nodes.length) then false
  else if (conv_nodes nodes).any (fun n => n.dynShape) then false
  else if (conv_nodes nodes).any (fun n => decide (1 < n.groups) && decide (1 < n.wSize1)) then false
  else if (conv_nodes nodes).any (fun n => decide (n.wSize0 * 2 ≤ n.wSize1) && decide (1 < n.wSize2)) then false
  else if (conv_nodes nodes).all (fun n => decide (n.wSize0 ≤ 64) && decide (n.wSize1 ≤ 64)) then false
  else if nodes.any (fun n => n.isSdpaTarget) then false
  else true

/-- The non-CPU device classes as computed in `init_wrapper_code`: device
classes of graph inputs together with device classes of buffers, with
`"cpu"` discarded (as a set: deduplicated). -/
def nonCpuDevTypes (inputDevTypes bufDevTypes : List String) : List String :=
  ((inputDevTypes ++ bufDevTypes).filter (fun d => !decide (d = "cpu"))).dedup

/-- The selected wrapper-codegen device class: the remaining non-CPU
class, or `"cpu"` when none remains (`only_cpu`). -/
def selectedDevType (inputDevTypes bufDevTypes : List String) : String :=
  (nonCpuDevTypes inputDevTypes bufDevTypes).headD ("cpu")

/-- `GraphLowering.init_wrapper_code` on the default (non-C++-wrapper)
path, which selects a backend from the set of device-class strings touched
by graph inputs and buffers: buffer device classes are added to the input
set, `"cpu"` is discarded, at most one class may remain, and the remaining
class (or `"cpu"` when none remains) must have a registered wrapper
code generator (`hasWrapperCodegen`, modelled from the spec's backend
selection contract `wrapper_codegen_for(device_class)`).  `Except.error`
stands for the two `assert` failures. -/
def init_wrapper_code (hasWrapperCodegen : String → Bool)
    (inputDevTypes bufDevTypes : List String) : Except String String :=
  if (nonCpuDevTypes inputDevTypes bufDevTypes).length ≤ 1 then
    if hasWrapperCodegen (selectedDevType inputDevTypes bufDevTypes) then
      Except.ok (selectedDevType inputDevTypes bufDevTypes)
    else Except.error ("Device not supported: " ++ selectedDevType inputDevTypes bufDevTypes)
  else
    Except.error ("Does not support mixing devices")

/-- Concrete eligibility predicate for the C2 witness graph: node 0 is the
convolution. -/
def isConvW : Nat → Bool := fun n => decide (n = 0)

/-- Concrete user map for the C2 witness graph `conv (0) → bn (1) → relu
(2)`. -/
def usersW : Nat → List Nat :=
  fun n => if n = 0 then [1] else if n = 1 then [2] else []

/-- Whether an `Except` result is a success (no `assert`/exception was
raised). -/
def exceptIsOk {ε α : Type} : Except ε α → Bool
  | Except.ok _ => true
  | Except.error _ => false

/-- Concrete wrapper-codegen registry used in the C9 witness: CPU and CUDA
have registered backends (as set up by `init_backend_registration`). -/
def regW : String → Bool :=
  fun d => decide (d = "cpu") || decide (d = "cuda")

/-- Concrete convolution node used in the C7 witness: 4 output channels,
16 input channels, kernel extent 3. -/
def convNodeW : GNode :=
  { isConvTarget := true, isSdpaTarget := false, inCpu := true, wCpu := true,
    dynShape := false, groups := 1, wSize0 := 4, wSize1 := 16, wSize2 := 3 }

/-- Concrete operator target used in witnesses. -/
def tFoo : Target :=
  { baseName := "aten::foo", overload := "default", marker := false }

/-- Concrete always-succeeding lowering handler used in witnesses. -/
def okHandler : Target → List Nat → Except String Nat :=
  fun _ _ => Except.ok 0

/-- Concrete always-raising lowering handler used in witnesses. -/
def errHandler : Target → List Nat → Except String Nat :=
  fun _ _ => Except.error ("boom")

/-- Concrete lowering configuration used in witnesses: empty allow-list,
implicit fallbacks enabled, no decompositions. -/
def cfgImplicit : LowerConfig :=
  { allowList := [], implicitFallbacks := true, hasDecomp := fun _ => false }

/-- Concrete lowering configuration used in witnesses: the witness target
on the allow-list, implicit fallbacks disabled, no decompositions. -/
def cfgAllow : LowerConfig :=
  { allowList := ["aten::foo"], implicitFallbacks := false,
    hasDecomp := fun _ => false }

theorem mem_insertStr {a b : String} {l : List String} :
    a ∈ insertStr b l ↔ a = b ∨ a ∈ l := by
  unfold insertStr
  by_cases h : b ∈ l
  · simp only [if_pos h]
    constructor
    · exact fun ha => Or.inr ha
    · rintro (rfl | ha)
      · exact h
      · exact ha
  · simp [if_neg h]

theorem self_mem_insertStr (b : String) (l : List String) : b ∈ insertStr b l :=
  mem_insertStr.mpr (Or.inl rfl)

theorem subset_insertStr {a b : String} {l : List String} (h : a ∈ l) :
    a ∈ insertStr b l :=
  mem_insertStr.mpr (Or.inr h)

theorem mem_insertNat {a b : Nat} {l : List Nat} :
    a ∈ insertNat b l ↔ a = b ∨ a ∈ l := by
  unfold insertNat
  by_cases h : b ∈ l
  · simp only [if_pos h]
    constructor
    · exact fun ha => Or.inr ha
    · rintro (rfl | ha)
      · exact h
      · exact ha
  · simp [if_neg h]

theorem mem_foldl_realizeNode {us : List Nat} {r : List Nat} {x : Nat} :
    x ∈ us.foldl realizeNode r ↔ x ∈ r ∨ x ∈ us := by
  induction us generalizing r with
  | nil => simp
  | cons u us ih =>
    simp only [List.foldl_cons, ih, realizeNode, mem_insertNat, List.mem_cons]
    tauto

/-- Claim C4: after `mark_buffer_mutated st b`, the buffer `b` is in the
mutated-buffer set, every IR node recorded as a reader of `b` at the time
of the call is realized, the reader table is unchanged, and a node that is
not among the currently recorded readers (and was not already realized) is
not realized by the call. -/
theorem mark_buffer_mutated_spec (st : MutState) (name : String) :
    name ∈ (mark_buffer_mutated st name).mutatedBuffers ∧
    (∀ us, assocLookup st.nameToUsers name = some us →
      ∀ u ∈ us, u ∈ (mark_buffer_mutated st name).realized) ∧
    (mark_buffer_mutated st name).nameToUsers = st.nameToUsers ∧
    (∀ u, u ∉ st.realized →
      (∀ us, assocLookup st.nameToUsers name = some us → u ∉ us) →
      u ∉ (mark_buffer_mutated st name).realized) := by
  unfold mark_buffer_mutated
  cases h : assocLookup st.nameToUsers name with
  | none =>
    refine ⟨self_mem_insertStr _ _, ?_, rfl, ?_⟩
    · intro us hus
      cases hus
    · intro u hu _
      exact hu
  | some users =>
    refine ⟨self_mem_insertStr _ _, ?_, rfl, ?_⟩
    · intro us hus u hu
      cases hus
      exact mem_foldl_realizeNode.mpr (Or.inr hu)
    · intro u hu hnot hmem
      rcases mem_foldl_realizeNode.mp hmem with h1 | h2
      · exact hu h1
      · exact hnot users rfl h2

/-- Witness for C4 at a concrete state: reader `7` of `"buf0"` is realized
by the call, reader `9` registered under another buffer is not. -/
theorem mark_buffer_mutated_spec_witness :
    "buf0" ∈ (mark_buffer_mutated
        { mutatedBuffers := [], nameToUsers := [("buf0", [7]), ("buf1", [9])],
          realized := [] } ("buf0")).mutatedBuffers ∧
    7 ∈ (mark_buffer_mutated
        { mutatedBuffers := [], nameToUsers := [("buf0", [7]), ("buf1", [9])],
          realized := [] } ("buf0")).realized ∧
    9 ∉ (mark_buffer_mutated
        { mutatedBuffers := [], nameToUsers := [("buf0", [7]), ("buf1", [9])],
          realized := [] } ("buf0")).realized := by
  have h := mark_buffer_mutated_spec
    { mutatedBuffers := [], nameToUsers := [("buf0", [7]), ("buf1", [9])],
      realized := [] } ("buf0")
  refine ⟨h.1, ?_, ?_⟩
  · exact h.2.1 [7] (by decide) 7 (by decide)
  · exact h.2.2.2 9 (by decide) (by decide)

theorem runWarnCalls_invariant (calls : List String) (st : WarnState)
    (hnd : st.hintLog.Nodup)
    (hsub : ∀ n ∈ st.hintLog, n ∈ st.warned)
    (hconv : "aten.convolution_backward" ∈ st.warned)
    (hnolog : "aten.convolution_backward" ∉ st.hintLog) :
    (runWarnCalls st calls).hintLog.Nodup ∧
    (∀ n ∈ (runWarnCalls st calls).hintLog, n ∈ (runWarnCalls st calls).warned) ∧
    "aten.convolution_backward" ∈ (runWarnCalls st calls).warned ∧
    "aten.convolution_backward" ∉ (runWarnCalls st calls).hintLog := by
  induction calls generalizing st with
  | nil => exact ⟨hnd, hsub, hconv, hnolog⟩
  | cons c cs ih =>
    simp only [runWarnCalls, List.foldl_cons]
    by_cases hc : c ∈ st.warned
    · have : warn_fallback st c = st := by
        unfold warn_fallback
        simp [hc]
      rw [this]
      exact ih st hnd hsub hconv hnolog
    · have hcnot : c ∉ st.hintLog := fun hmem => hc (hsub c hmem)
      have hwf : warn_fallback st c =
          { warned := insertStr c st.warned, hintLog := st.hintLog ++ [c] } := by
        unfold warn_fallback
        simp [hc]
      rw [hwf]
      refine ih _ ?_ ?_ ?_ ?_
      · have hdisj : st.hintLog.Disjoint [c] := by
          intro a ha hac
          rw [List.mem_singleton.mp hac] at ha
          exact hcnot ha
        exact List.Nodup.append hnd (List.nodup_singleton c) hdisj
      · intro n hn
        rcases List.mem_append.mp hn with h1 | h2
        · exact subset_insertStr (hsub n h1)
        · simp only [List.mem_singleton] at h2
          subst h2
          exact self_mem_insertStr _ _
      · exact subset_insertStr hconv
      · intro hmem
        rcases List.mem_append.mp hmem with h1 | h2
        · exact hnolog h1
        · simp only [List.mem_singleton] at h2
          exact hc (h2 ▸ hconv)

/-- Claim C10: starting from the state built in `__init__`, an arbitrary
sequence of `warn_fallback` calls logs each distinct operator name at most
once, and never logs `"aten.convolution_backward"`, which is pre-seeded
into the already-warned set. -/
theorem warn_fallback_once_and_preseeded (calls : List String) :
    (∀ name, (runWarnCalls initWarnState calls).hintLog.count name ≤ 1) ∧
    "aten.convolution_backward" ∉ (runWarnCalls initWarnState calls).hintLog := by
  have h := runWarnCalls_invariant calls initWarnState (by simp [initWarnState])
    (by simp [initWarnState]) (by simp [initWarnState]) (by simp [initWarnState])
  refine ⟨fun name => ?_, h.2.2.2⟩
  exact List.nodup_iff_count_le_one.mp h.1 name

/-- Witness for C10 on a concrete call sequence: a repeated fallback
operator is logged once, and the pre-seeded
`"aten.convolution_backward"` is never logged despite being used. -/
theorem warn_fallback_once_and_preseeded_witness :
    (runWarnCalls initWarnState
      ["aten.mm", "aten.mm", "aten.convolution_backward"]).hintLog.count ("aten.mm") ≤ 1 ∧
    "aten.convolution_backward" ∉ (runWarnCalls initWarnState
      ["aten.mm", "aten.mm", "aten.convolution_backward"]).hintLog := by
  have h := warn_fallback_once_and_preseeded
    ["aten.mm", "aten.mm", "aten.convolution_backward"]
  exact ⟨h.1 ("aten.mm"), h.2⟩

theorem assocLookup_append_of_some {α : Type} {l l2 : List (String × α)}
    {k : String} {v : α} (h : assocLookup l k = some v) :
    assocLookup (l ++ l2) k = some v := by
  induction l with
  | nil => cases h
  | cons p ps ih =>
    rw [List.cons_append]
    unfold assocLookup at h ⊢
    by_cases hp : p.1 = k
    · simpa [hp] using h
    · rw [if_neg hp] at h ⊢
      exact ih h

theorem assocLookup_append_self {α : Type} {l : List (String × α)}
    {k : String} {v : α} (h : assocLookup l k = none) :
    assocLookup (l ++ [(k, v)]) k = some v := by
  induction l with
  | nil => simp [assocLookup]
  | cons p ps ih =>
    rw [List.cons_append]
    unfold assocLookup at h ⊢
    by_cases hp : p.1 = k
    · rw [if_pos hp] at h
      cases h
    · rw [if_neg hp] at h ⊢
      exact ih h

/-- Claim C8: `constant_name` returns the name unchanged when the constant
already sits on the requested device; otherwise it creates the per-device
copy under the derived name exactly once — the first call extends the
table, and a repeated call with the same name and device returns the same
derived name without adding a new entry. -/
theorem constant_name_spec (constants : List (String × FakeTensor))
    (name : String) (t : FakeTensor) (dev : Device)
    (hname : assocLookup constants name = some t) :
    (t.device = dev → constant_name constants name (some dev) = some (name, constants)) ∧
    (t.device ≠ dev → assocLookup constants (altConstantName name dev) = none →
      constant_name constants name (some dev) =
        some (altConstantName name dev,
          constants ++ [(altConstantName name dev, tensorTo t dev)]) ∧
      constant_name (constants ++ [(altConstantName name dev, tensorTo t dev)])
          name (some dev) =
        some (altConstantName name dev,
          constants ++ [(altConstantName name dev, tensorTo t dev)])) := by
  constructor
  · intro hdev
    unfold constant_name
    rw [hname]
    simp [hdev]
  · intro hdev halt
    constructor
    · unfold constant_name
      rw [hname]
      simp only [if_neg hdev, halt]
    · unfold constant_name
      rw [assocLookup_append_of_some hname]
      simp only [if_neg hdev, assocLookup_append_self halt]

/-- Witness for C8 at a concrete table: a CPU constant requested on CPU
keeps its name; requested on `cuda0` it is copied once under the derived
name `"w_cuda0"`. -/
theorem constant_name_spec_witness :
    constant_name [("w", wTensor)] ("w") (some cpuDev) =
      some ("w", [("w", wTensor)]) ∧
    constant_name [("w", wTensor)] ("w") (some cuda0Dev) =
      some ("w_cuda0", [("w", wTensor), ("w_cuda0", tensorTo wTensor cuda0Dev)]) := by
  have h2 := constant_name_spec [("w", wTensor)] ("w") wTensor cpuDev (by decide)
  have h := constant_name_spec [("w", wTensor)] ("w") wTensor cuda0Dev (by decide)
  refine ⟨h2.1 (by decide), ?_⟩
  have h3 := (h.2 (by decide) (by decide)).1
  rw [h3]
  decide

/-- Claim C7: with the earlier rules of `decide_layout_opt` not deciding
the outcome (feature flag on, at least one convolution, no bad
hardware/runtime combination, the all-CPU/MKLDNN fast path not taken, the
node/conv ratio below the threshold, no dynamic shapes, no grouped
convolution with more than one in-channel per group), a convolution whose
output channels are less than half its input channels and whose kernel has
non-trivial spatial extent forces the decision to `false`. -/
theorem decide_layout_opt_small_out_channels
    (hipCuda mkldnnOn : Bool) (nodes : List GNode)
    (h3 : hipCuda = false)
    (h4 : ((conv_nodes nodes).all (fun n => n.inCpu && n.wCpu) && mkldnnOn) = false)
    (h5 : nodes.length < 300 * (conv_nodes nodes).length)
    (hx : ∃ c ∈ conv_nodes nodes, 2 * c.wSize0 < c.wSize1 ∧ 1 < c.wSize2) :
    decide_layout_opt true hipCuda mkldnnOn nodes = false := by
  rcases hx with ⟨c, hc, hc1, hc2⟩
  have hcond : ((conv_nodes nodes).any
      (fun n => decide (n.wSize0 * 2 ≤ n.wSize1) && decide (1 < n.wSize2))) = true := by
    refine List.any_eq_true.mpr ⟨c, hc, ?_⟩
    simp only [Bool.and_eq_true, decide_eq_true_eq]
    exact ⟨by omega, hc2⟩
  unfold decide_layout_opt
  split_ifs <;> simp_all

/-- Witness for C7 on a concrete one-convolution graph: 4 output channels,
16 input channels (less than half), kernel extent 3 — layout optimization
is disabled. -/
theorem decide_layout_opt_small_out_channels_witness :
    decide_layout_opt true false false [convNodeW] = false := by
  refine decide_layout_opt_small_out_channels false false [convNodeW]
    (by decide) (by decide) (by decide) ⟨convNodeW, by decide, by decide, by decide⟩

theorem nonCpuDevTypes_length (ins bufs : List String) :
    (nonCpuDevTypes ins bufs).length =
      ((ins ++ bufs).toFinset.erase ("cpu")).card := by
  unfold nonCpuDevTypes
  rw [← List.card_toFinset, List.toFinset_filter]
  congr 1
  rw [← Finset.filter_ne' ((ins ++ bufs).toFinset) ("cpu")]
  apply Finset.filter_congr
  intro x _
  simp

theorem selectedDevType_mem_or_cpu (ins bufs : List String) :
    selectedDevType ins bufs = "cpu" ∨
      selectedDevType ins bufs ∈ ins ++ bufs := by
  unfold selectedDevType
  cases h : nonCpuDevTypes ins bufs with
  | nil => exact Or.inl rfl
  | cons d ds =>
    refine Or.inr ?_
    have hd : d ∈ nonCpuDevTypes ins bufs := by
      rw [h]
      exact List.mem_cons_self d ds
    unfold nonCpuDevTypes at hd
    have := List.mem_filter.mp (List.mem_dedup.mp hd)
    simpa using this.1

/-- Claim C9: during backend selection, more than one distinct non-CPU
device class among those touched by graph inputs and buffers is rejected
(the `assert` fails); CPU mixed with at most one non-CPU device class is
accepted, provided the remaining class has a registered wrapper codegen. -/
theorem init_wrapper_code_device_mixing (reg : String → Bool)
    (ins bufs : List String) :
    (1 < ((ins ++ bufs).toFinset.erase ("cpu")).card →
      exceptIsOk (init_wrapper_code reg ins bufs) = false) ∧
    (((ins ++ bufs).toFinset.erase ("cpu")).card ≤ 1 →
      reg ("cpu") = true → (∀ d ∈ ins ++ bufs, reg d = true) →
      exceptIsOk (init_wrapper_code reg ins bufs) = true) := by
  constructor
  · intro hcard
    have hlen : ¬(nonCpuDevTypes ins bufs).length ≤ 1 := by
      rw [nonCpuDevTypes_length]
      omega
    unfold init_wrapper_code
    rw [if_neg hlen]
    rfl
  · intro hcard hcpu hall
    have hlen : (nonCpuDevTypes ins bufs).length ≤ 1 := by
      rw [nonCpuDevTypes_length]
      exact hcard
    have hreg : reg (selectedDevType ins bufs) = true := by
      rcases selectedDevType_mem_or_cpu ins bufs with h | h
      · rw [h]
        exact hcpu
      · exact hall _ h
    unfold init_wrapper_code
    rw [if_pos hlen, if_pos hreg]
    rfl

/-- Witness for C9: inputs touching `cpu`, `cuda` and `xpu` are rejected;
inputs touching `cpu` and `cuda` only (with a CUDA buffer) are accepted. -/
theorem init_wrapper_code_device_mixing_witness :
    exceptIsOk (init_wrapper_code regW ["cpu", "cuda", "xpu"] []) = false ∧
    exceptIsOk (init_wrapper_code regW ["cpu", "cuda"] ["cuda"]) = true := by
  constructor
  · exact (init_wrapper_code_device_mixing regW ["cpu", "cuda", "xpu"] []).1 (by decide)
  · exact (init_wrapper_code_device_mixing regW ["cpu", "cuda"] ["cuda"]).2
      (by decide) (by decide) (by decide)

theorem runDispatched_notMissing {V E : Type}
    (handler : Target → List V → Except E V) (t : Target) (args : List V) :
    CFOutcome.notMissing (runDispatched handler t args) := by
  unfold runDispatched
  cases handler t args <;> trivial

theorem runDispatched_ok {V E : Type}
    (handler : Target → List V → Except E V) (t : Target) (args : List V)
    (v : V) (h : handler t args = Except.ok v) :
    runDispatched handler t args = CFOutcome.ok v := by
  unfold runDispatched
  rw [h]

/-- Claim C1: for an operator not in the lowering registry and without the
direct-lowering marker — if its base name is on the allow-list a fallback
is registered and dispatch proceeds (no missing-operator error, and a
successful handler yields its value); else if implicit fallbacks are
enabled a fallback is synthesized, persists in the registry, and a second
identical call dispatches from the registry without change; else a
decomposition yields `MissingOperatorWithDecomp`, and otherwise
`MissingOperatorWithoutDecomp`. -/
theorem call_function_fallback_chain {V E : Type} (cfg : LowerConfig)
    (handler : Target → List V → Except E V) (reg : List Target)
    (t : Target) (args : List V)
    (hm : t.marker = false) (hreg : t ∉ reg) :
    (t.baseName ∈ cfg.allowList →
      t ∈ (call_function cfg handler reg t args).2 ∧
      CFOutcome.notMissing (call_function cfg handler reg t args).1 ∧
      (∀ v, handler t args = Except.ok v →
        (call_function cfg handler reg t args).1 = CFOutcome.ok v)) ∧
    (t.baseName ∉ cfg.allowList → cfg.implicitFallbacks = true →
      t ∈ (call_function cfg handler reg t args).2 ∧
      CFOutcome.notMissing (call_function cfg handler reg t args).1 ∧
      (∀ v, handler t args = Except.ok v →
        (call_function cfg handler reg t args).1 = CFOutcome.ok v) ∧
      (call_function cfg handler
          (call_function cfg handler reg t args).2 t args).2 =
        (call_function cfg handler reg t args).2 ∧
      CFOutcome.notMissing (call_function cfg handler
          (call_function cfg handler reg t args).2 t args).1) ∧
    (t.baseName ∉ cfg.allowList → cfg.implicitFallbacks = false →
      cfg.hasDecomp t = true →
      call_function cfg handler reg t args =
        (CFOutcome.missingWithDecomp t, reg)) ∧
    (t.baseName ∉ cfg.allowList → cfg.implicitFallbacks = false →
      cfg.hasDecomp t = false →
      call_function cfg handler reg t args =
        (CFOutcome.missingWithoutDecomp t, reg)) := by
  have hmf : make_fallback reg t = t :: reg := by
    unfold make_fallback
    rw [if_neg hreg]
  refine ⟨?_, ?_, ?_, ?_⟩
  · intro hallow
    unfold call_function
    rw [hm]
    simp only [Bool.false_eq_true, if_false, if_neg hreg, if_pos hallow, hmf]
    refine ⟨List.mem_cons_self t reg, runDispatched_notMissing handler t args, ?_⟩
    intro v hv
    exact runDispatched_ok handler t args v hv
  · intro hallow himp
    have hfst : call_function cfg handler reg t args =
        (runDispatched handler t args, t :: reg) := by
      unfold call_function
      rw [hm]
      simp only [Bool.false_eq_true, if_false, if_neg hreg, if_neg hallow, himp,
        if_true, hmf]
    rw [hfst]
    have hsnd : call_function cfg handler (t :: reg) t args =
        (runDispatched handler t args, t :: reg) := by
      unfold call_function
      rw [hm]
      simp only [Bool.false_eq_true, if_false,
        if_pos (List.mem_cons_self t reg)]
    refine ⟨List.mem_cons_self t reg, runDispatched_notMissing handler t args,
      ?_, ?_, ?_⟩
    · intro v hv
      exact runDispatched_ok handler t args v hv
    · rw [hsnd]
    · rw [hsnd]
      exact runDispatched_notMissing handler t args
  · intro hallow himp hdec
    unfold call_function
    rw [hm]
    simp only [Bool.false_eq_true, if_false, if_neg hreg, if_neg hallow, himp,
      hdec, if_true]
  · intro hallow himp hdec
    unfold call_function
    rw [hm]
    simp only [Bool.false_eq_true, if_false, if_neg hreg, if_neg hallow, himp,
      hdec]

/-- Witness for C1 with implicit fallbacks enabled: a foreign operator is
lowered successfully and the synthesized fallback persists in the
registry. -/
theorem call_function_fallback_chain_witness :
    tFoo ∈ (call_function cfgImplicit okHandler [] tFoo ([] : List Nat)).2 ∧
    (call_function cfgImplicit okHandler [] tFoo ([] : List Nat)).1 =
      CFOutcome.ok 0 ∧
    (call_function cfgImplicit okHandler
        (call_function cfgImplicit okHandler [] tFoo ([] : List Nat)).2
        tFoo ([] : List Nat)).2 =
      (call_function cfgImplicit okHandler [] tFoo ([] : List Nat)).2 := by
  have h := call_function_fallback_chain cfgImplicit okHandler [] tFoo []
    (by decide) (by decide)
  have h2 := h.2.1 (by decide) (by decide)
  exact ⟨h2.1, h2.2.2.1 0 rfl, h2.2.2.2.1⟩

/-- Claim C6: an exception raised inside a successfully dispatched lowering
handler (the operator is in the registry, or gets a fallback from the
allow-list or implicit-fallback mode) is re-raised as a
`LoweringException` carrying the original cause, the offending operator
and the arguments. -/
theorem call_function_wraps_lowering_exception {V E : Type}
    (cfg : LowerConfig) (handler : Target → List V → Except E V)
    (reg : List Target) (t : Target) (args : List V) (e : E)
    (hm : t.marker = false)
    (hdisp : t ∈ reg ∨ t.baseName ∈ cfg.allowList ∨ cfg.implicitFallbacks = true)
    (he : handler t args = Except.error e) :
    (call_function cfg handler reg t args).1 =
      CFOutcome.loweringExc e t args := by
  have hrun : runDispatched handler t args = CFOutcome.loweringExc e t args := by
    unfold runDispatched
    rw [he]
  unfold call_function
  rw [hm]
  by_cases h1 : t ∈ reg
  · simp only [Bool.false_eq_true, if_false, if_pos h1]
    exact hrun
  · by_cases h2 : t.baseName ∈ cfg.allowList
    · simp only [Bool.false_eq_true, if_false, if_neg h1, if_pos h2]
      exact hrun
    · have h3 : cfg.implicitFallbacks = true := by
        rcases hdisp with h | h | h
        · exact absurd h h1
        · exact absurd h h2
        · exact h
      simp only [Bool.false_eq_true, if_false, if_neg h1, if_neg h2, h3, if_true]
      exact hrun

/-- Witness for C6: a handler raising `"boom"` on a registered-via-implicit
fallback target yields a wrapped `LoweringException` carrying the cause,
the operator and the arguments. -/
theorem call_function_wraps_lowering_exception_witness :
    (call_function cfgImplicit errHandler [] tFoo ([] : List Nat)).1 =
      CFOutcome.loweringExc ("boom") tFoo [] :=
  call_function_wraps_lowering_exception cfgImplicit errHandler [] tFoo [] ("boom")
    (by decide) (Or.inr (Or.inr (by decide))) rfl

theorem outputRewrite_muts_mono (inputs : List (String × IRVal))
    (acc : List IRVal × List (String × IRVal)) (p : String × IRVal)
    (hp : p ∈ acc.2) : p ∈ (inputs.foldl outputRewriteStep acc).2 := by
  induction inputs generalizing acc with
  | nil => exact hp
  | cons q qs ih =>
    refine ih (outputRewriteStep acc q) ?_
    unfold outputRewriteStep
    by_cases hq : q.2 = IRVal.inputBuf q.1
    · rw [if_pos hq]
      exact hp
    · rw [if_neg hq]
      exact List.mem_append_left _ hp

theorem outputRewrite_muts_mem (inputs : List (String × IRVal))
    (acc : List IRVal × List (String × IRVal)) (p : String × IRVal)
    (hmem : p ∈ inputs) (hmut : p.2 ≠ IRVal.inputBuf p.1) :
    p ∈ (inputs.foldl outputRewriteStep acc).2 := by
  induction inputs generalizing acc with
  | nil => cases hmem
  | cons q qs ih =>
    rcases List.mem_cons.mp hmem with rfl | hmem2
    · refine outputRewrite_muts_mono qs (outputRewriteStep acc p) p ?_
      unfold outputRewriteStep
      rw [if_neg hmut]
      exact List.mem_append_right _ (List.mem_singleton_self p)
    · exact ih (outputRewriteStep acc q) hmem2

theorem listSetFirst_not_mem {l : List IRVal} {t r : IRVal} (h : t ∉ l) :
    listSetFirst l t r = l := by
  induction l with
  | nil => rfl
  | cons x xs ih =>
    unfold listSetFirst
    have hx : ¬x = t := fun hxt => h (hxt ▸ List.mem_cons_self x xs)
    rw [if_neg hx, ih (fun hm => h (List.mem_cons_of_mem x hm))]

theorem listSetFirst_get?_first {l : List IRVal} {t r : IRVal} {i : Nat}
    (hi : l.get? i = some t) (hfirst : ∀ j < i, l.get? j ≠ some t) :
    (listSetFirst l t r).get? i = some r := by
  induction l generalizing i with
  | nil => cases hi
  | cons x xs ih =>
    cases i with
    | zero =>
      simp only [List.get?] at hi
      cases hi
      unfold listSetFirst
      rw [if_pos rfl]
      rfl
    | succ i =>
      have hx : ¬x = t := by
        intro hxt
        exact hfirst 0 (Nat.succ_pos i) (by simp [List.get?, hxt])
      unfold listSetFirst
      rw [if_neg hx]
      simp only [List.get?] at hi ⊢
      exact ih hi (fun j hj => hfirst (j + 1) (Nat.succ_lt_succ hj))

theorem listSetFirst_get?_other {l : List IRVal} {t r w : IRVal} {i : Nat}
    (hi : l.get? i = some w) (hw : w ≠ t) :
    (listSetFirst l t r).get? i = some w := by
  induction l generalizing i with
  | nil => cases hi
  | cons x xs ih =>
    unfold listSetFirst
    by_cases hx : x = t
    · rw [if_pos hx]
      cases i with
      | zero =>
        simp only [List.get?] at hi
        cases hi
        exact absurd hx hw
      | succ i =>
        simpa [List.get?] using hi
    · rw [if_neg hx]
      cases i with
      | zero =>
        simpa [List.get?] using hi
      | succ i =>
        simp only [List.get?] at hi ⊢
        exact ih hi

/-- The claim of C3, as stated, is false on the code: with graph input
`"x"` reassigned to an intermediate value that occupies *two* output
slots, `graph_outputs.index(...)` redirects only the first slot; the
second still references the intermediate value rather than the original
input buffer. -/
theorem output_rewrite_duplicate_slot_counterexample :
    (outputRewrite [("x", IRVal.computed 0)]
        [IRVal.computed 0, IRVal.computed 0]).1 =
      [IRVal.inputBuf ("x"), IRVal.computed 0] ∧
    (outputRewrite [("x", IRVal.computed 0)]
        [IRVal.computed 0, IRVal.computed 0]).1 ≠
      [IRVal.inputBuf ("x"), IRVal.inputBuf ("x")] := by
  decide

/-- Claim C3 (amended): for every declared graph input whose value is no
longer its original input-buffer placeholder, a copy-based mutation into
the original input buffer is recorded; and (for such an input) the *first*
graph-output slot holding the intermediate value is redirected to the
original input buffer, slots holding other values are unchanged, and when
no slot holds the intermediate value the outputs are unchanged. -/
theorem output_rewrite_spec (name : String) (v : IRVal) (outs : List IRVal)
    (hmut : v ≠ IRVal.inputBuf name) :
    (∀ inputs : List (String × IRVal), ∀ outs2 : List IRVal,
      ∀ p ∈ inputs, p.2 ≠ IRVal.inputBuf p.1 → p ∈ (outputRewrite inputs outs2).2) ∧
    (outputRewrite [(name, v)] outs).2 = [(name, v)] ∧
    (∀ i, outs.get? i = some v → (∀ j < i, outs.get? j ≠ some v) →
      ((outputRewrite [(name, v)] outs).1).get? i = some (IRVal.inputBuf name)) ∧
    (∀ i w, outs.get? i = some w → w ≠ v →
      ((outputRewrite [(name, v)] outs).1).get? i = some w) ∧
    (v ∉ outs → (outputRewrite [(name, v)] outs).1 = outs) := by
  have hone : outputRewrite [(name, v)] outs =
      (listSetFirst outs v (IRVal.inputBuf name), [(name, v)]) := by
    unfold outputRewrite outputRewriteStep
    simp only [List.foldl_cons, List.foldl_nil, if_neg hmut, List.nil_append]
  refine ⟨?_, ?_, ?_, ?_, ?_⟩
  · intro inputs outs2 p hp hpm
    exact outputRewrite_muts_mem inputs (outs2, []) p hp hpm
  · rw [hone]
  · intro i hi hfirst
    rw [hone]
    exact listSetFirst_get?_first hi hfirst
  · intro i w hi hw
    rw [hone]
    exact listSetFirst_get?_other hi hw
  · intro hnm
    rw [hone]
    exact listSetFirst_not_mem hnm

/-- Witness for C3 (amended) on concrete data: the mutation is recorded,
the first slot holding the intermediate value (index 1) is redirected, and
the slot holding a different value (index 0) is unchanged. -/
theorem output_rewrite_spec_witness :
    (outputRewrite [("x", IRVal.computed 1)]
        [IRVal.computed 0, IRVal.computed 1, IRVal.computed 1]).2 =
      [("x", IRVal.computed 1)] ∧
    ((outputRewrite [("x", IRVal.computed 1)]
        [IRVal.computed 0, IRVal.computed 1, IRVal.computed 1]).1).get? 1 =
      some (IRVal.inputBuf ("x")) ∧
    ((outputRewrite [("x", IRVal.computed 1)]
        [IRVal.computed 0, IRVal.computed 1, IRVal.computed 1]).1).get? 0 =
      some (IRVal.computed 0) := by
  have h := output_rewrite_spec ("x") (IRVal.computed 1)
    [IRVal.computed 0, IRVal.computed 1, IRVal.computed 1] (by decide)
  exact ⟨h.2.1, h.2.2.1 1 (by decide) (by decide),
    h.2.2.2.1 0 (IRVal.computed 0) (by decide) (by decide)⟩

theorem mem_foldl_insertNat2 {us r : List Nat} {x : Nat} :
    x ∈ us.foldl (fun t u => insertNat u t) r ↔ x ∈ r ∨ x ∈ us := by
  induction us generalizing r with
  | nil => simp
  | cons u us ih =>
    simp only [List.foldl_cons, ih, mem_insertNat, List.mem_cons]
    tauto

theorem mem_backStep {isConv : Nat → Bool} {users : Nat → List Nat}
    {s : List Nat} {n x : Nat} (h : x ∈ s) :
    x ∈ backStep isConv users s n := by
  unfold backStep
  split_ifs <;> first
  | exact mem_insertNat.mpr (Or.inr h)
  | exact h

theorem mem_foldl_backStep {isConv : Nat → Bool} {users : Nat → List Nat}
    {l s : List Nat} {x : Nat} (h : x ∈ s) :
    x ∈ l.foldl (backStep isConv users) s := by
  induction l generalizing s with
  | nil => exact h
  | cons n ns ih => exact ih (mem_backStep h)

theorem conv_mem_foldl_backStep {isConv : Nat → Bool} {users : Nat → List Nat}
    {l s : List Nat} {x : Nat} (hx : x ∈ l) (hc : isConv x = true) :
    x ∈ l.foldl (backStep isConv users) s := by
  induction l generalizing s with
  | nil => cases hx
  | cons n ns ih =>
    rcases List.mem_cons.mp hx with rfl | hx2
    · rw [List.foldl_cons]
      refine mem_foldl_backStep ?_
      unfold backStep
      rw [if_pos hc]
      exact mem_insertNat.mpr (Or.inl rfl)
    · rw [List.foldl_cons]
      exact ih hx2

theorem foldl_backStep_subset {isConv : Nat → Bool} {users : Nat → List Nat}
    {l s : List Nat} {x : Nat} (h : x ∈ l.foldl (backStep isConv users) s) :
    x ∈ s ∨ x ∈ l := by
  induction l generalizing s with
  | nil => exact Or.inl h
  | cons n ns ih =>
    rw [List.foldl_cons] at h
    rcases ih h with h1 | h2
    · unfold backStep at h1
      split_ifs at h1 with g1 g2
      · rcases mem_insertNat.mp h1 with rfl | hs
        · exact Or.inr (List.mem_cons_self x ns)
        · exact Or.inl hs
      · rcases mem_insertNat.mp h1 with rfl | hs
        · exact Or.inr (List.mem_cons_self x ns)
        · exact Or.inl hs
      · exact Or.inl h1
    · exact Or.inr (List.mem_cons_of_mem n h2)

theorem mem_fwdStep {users : Nat → List Nat} {s : List Nat} {n x : Nat} :
    x ∈ fwdStep users s n ↔ x ∈ s ∨ (n ∈ s ∧ x ∈ users n) := by
  unfold fwdStep
  by_cases h : n ∈ s
  · rw [if_pos h, mem_foldl_insertNat2]
    tauto
  · rw [if_neg h]
    tauto

theorem mem_foldl_fwdStep {users : Nat → List Nat} {l s : List Nat} {x : Nat}
    (h : x ∈ s) : x ∈ l.foldl (fwdStep users) s := by
  induction l generalizing s with
  | nil => exact h
  | cons n ns ih => exact ih (mem_fwdStep.mpr (Or.inl h))

theorem foldl_fwdStep_closed {users : Nat → List Nat} {k : Nat}
    (hb : ∀ n, n < k → ∀ u ∈ users n, n < u ∧ u < k) :
    ∀ (n a : Nat) (s : List Nat), a + n = k →
    (∀ w ∈ s, w < k) →
    (∀ w ∈ s, w ∈ List.range' a n ∨ ∀ u ∈ users w, u ∈ s) →
    (∀ w ∈ (List.range' a n).foldl (fwdStep users) s, w < k) ∧
    (∀ w ∈ (List.range' a n).foldl (fwdStep users) s,
      ∀ u ∈ users w, u ∈ (List.range' a n).foldl (fwdStep users) s) := by
  intro n
  induction n with
  | zero =>
    intro a s hak hsk hinv
    refine ⟨hsk, ?_⟩
    intro w hw u hu
    rcases hinv w hw with hmem | hall
    · simp at hmem
    · exact hall u hu
  | succ n ih =>
    intro a s hak hsk hinv
    rw [List.range'_succ, List.foldl_cons]
    have hax : a < k := by omega
    have hsk2 : ∀ w ∈ fwdStep users s a, w < k := by
      intro w hw
      rcases mem_fwdStep.mp hw with h1 | ⟨_, h2⟩
      · exact hsk w h1
      · exact (hb a hax w h2).2
    have hinv2 : ∀ w ∈ fwdStep users s a,
        w ∈ List.range' (a + 1) n ∨ ∀ u ∈ users w, u ∈ fwdStep users s a := by
      intro w hw
      rcases mem_fwdStep.mp hw with h1 | ⟨has, h2⟩
      · rcases hinv w h1 with hmem | hall
        · rw [List.range'_succ] at hmem
          rcases List.mem_cons.mp hmem with rfl | htail
          · refine Or.inr ?_
            intro u hu
            exact mem_fwdStep.mpr (Or.inr ⟨h1, hu⟩)
          · exact Or.inl htail
        · refine Or.inr ?_
          intro u hu
          exact mem_fwdStep.mpr (Or.inl (hall u hu))
      · refine Or.inl ?_
        rw [List.mem_range'_1]
        have := hb a hax w h2
        omega
    exact ih (a + 1) (fwdStep users s a) (by omega) hsk2 hinv2

/-- Claim C2: for an eligible (convolution) node `X` of a graph whose `k`
nodes are listed in topological trace order, every node `Y` consuming
`X`'s output — directly or transitively through intermediate nodes — is a
member of the final preference set computed by
`find_nodes_prefer_channels_last`. -/
theorem find_nodes_prefer_channels_last_closure (k : Nat)
    (isConv : Nat → Bool) (users : Nat → List Nat)
    (hb : ∀ n, n < k → ∀ u ∈ users n, n < u ∧ u < k)
    (X Y : Nat) (hX : X < k) (hconv : isConv X = true)
    (hreach : Reaches users X Y) :
    Y ∈ find_nodes_prefer_channels_last k isConv users := by
  have hgoal : find_nodes_prefer_channels_last k isConv users =
      (List.range k).foldl (fwdStep users)
        ((List.range k).reverse.foldl (backStep isConv users) []) := rfl
  rw [hgoal]
  have hXback : X ∈ (List.range k).reverse.foldl (backStep isConv users) [] :=
    conv_mem_foldl_backStep (by simp [List.mem_reverse, List.mem_range, hX]) hconv
  have hbackk : ∀ w ∈ (List.range k).reverse.foldl (backStep isConv users) [], w < k := by
    intro w hw
    rcases foldl_backStep_subset hw with h1 | h2
    · cases h1
    · rw [List.mem_reverse, List.mem_range] at h2
      exact h2
  have hinv : ∀ w ∈ (List.range k).reverse.foldl (backStep isConv users) [],
      w ∈ List.range' 0 k ∨ ∀ u ∈ users w,
        u ∈ (List.range k).reverse.foldl (backStep isConv users) [] := by
    intro w hw
    refine Or.inl ?_
    rw [List.mem_range'_1]
    exact ⟨Nat.zero_le w, by simpa using hbackk w hw⟩
  have hclosed := foldl_fwdStep_closed hb k 0
    ((List.range k).reverse.foldl (backStep isConv users) [])
    (by omega) hbackk hinv
  rw [← List.range_eq_range'] at hclosed
  have hXfinal : X ∈ (List.range k).foldl (fwdStep users)
      ((List.range k).reverse.foldl (backStep isConv users) []) :=
    mem_foldl_fwdStep hXback
  induction hreach with
  | direct h => exact hclosed.2 X hXfinal _ h
  | indirect hz hy ih =>
    exact hclosed.2 _ ih _ hy

/-- Witness for C2 on the concrete chain `conv (0) → bn (1) → relu (2)`:
the transitive consumer `2` of the convolution's output is in the final
preference set. -/
theorem find_nodes_prefer_channels_last_closure_witness :
    2 ∈ find_nodes_prefer_channels_last 3 isConvW usersW :=
  find_nodes_prefer_channels_last_closure 3 isConvW usersW (by decide) 0 2
    (by decide) (by decide)
    (@Reaches.indirect usersW 0 1 2 (@Reaches.direct usersW 0 1 (by decide))
      (by decide))

theorem decVal_append_singleton (l : List Char) (c : Char) :
    decVal (l ++ [c]) = 10 * decVal l + (c.toNat - 48) := by
  unfold decVal
  rw [List.foldl_append]
  rfl

theorem digitVal_digitChar (d : Nat) (h : d < 10) :
    (digitChar d).toNat - 48 = d := by
  interval_cases d <;> rfl

theorem decVal_natToDecAux (fuel n : Nat) (h : n ≤ fuel) :
    decVal (natToDecAux fuel n) = n := by
  induction fuel generalizing n with
  | zero =>
    have hn : n = 0 := Nat.le_zero.mp h
    subst hn
    rfl
  | succ fuel ih =>
    unfold natToDecAux
    by_cases hlt : n < 10
    · rw [if_pos hlt]
      unfold decVal
      simp [digitVal_digitChar n hlt]
    · rw [if_neg hlt]
      rw [decVal_append_singleton]
      have h10 : 10 ≤ n := Nat.le_of_not_lt hlt
      have hdiv : n / 10 ≤ fuel := by
        have : n / 10 < n := Nat.div_lt_self (by omega) (by omega)
        omega
      rw [ih (n / 10) hdiv, digitVal_digitChar (n % 10) (Nat.mod_lt n (by omega))]
      omega

theorem natToDec_injective : Function.Injective natToDec := by
  intro m n h
  have hdata : natToDecAux m m = natToDecAux n n := congrArg String.data h
  have := congrArg decVal hdata
  rwa [decVal_natToDecAux m m (Nat.le_refl m),
    decVal_natToDecAux n n (Nat.le_refl n)] at this

/-- The numeric-suffix candidate `f"{prefix}_{cnt}"` of the collision
loop. -/
def suffixCand (pre : String) (i : Nat) : String :=
  pre ++ "_" ++ natToDec i

theorem suffixCand_injective (pre : String) :
    Function.Injective (suffixCand pre) := by
  intro i j h
  unfold suffixCand at h
  have := congrArg String.data h
  simp only [String.data_append] at this
  have h2 := List.append_cancel_left this
  exact natToDec_injective (String.ext h2)

theorem exists_fresh_suffix (names : List String) (pre : String) :
    ∃ i, i ≤ names.length ∧ suffixCand pre i ∉ names := by
  by_contra hcon
  push_neg at hcon
  have hsub : ((List.range (names.length + 1)).map (suffixCand pre)) ⊆ names := by
    intro x hx
    rcases List.mem_map.mp hx with ⟨i, hi, rfl⟩
    exact hcon i (by simpa [Nat.lt_succ_iff] using List.mem_range.mp hi)
  have hnd : ((List.range (names.length + 1)).map (suffixCand pre)).Nodup :=
    (List.nodup_range _).map (suffixCand_injective pre)
  have hle := (List.subperm_of_subset hnd hsub).length_le
  simp at hle

theorem collisionLoop_fresh (names : List String) (pre : String) :
    ∀ (fuel cnt : Nat), (∃ i, i < fuel ∧ suffixCand pre (cnt + i) ∉ names) →
    collisionLoop names pre fuel cnt ∉ names := by
  intro fuel
  induction fuel with
  | zero =>
    intro cnt h
    rcases h with ⟨i, hi, _⟩
    omega
  | succ fuel ih =>
    intro cnt h
    unfold collisionLoop
    by_cases hc : (pre ++ "_" ++ natToDec cnt) ∈ names
    · rw [if_pos hc]
      refine ih (cnt + 1) ?_
      rcases h with ⟨i, hi, hnot⟩
      cases i with
      | zero => exact absurd hc (by simpa [suffixCand] using hnot)
      | succ i =>
        refine ⟨i, by omega, ?_⟩
        have : cnt + 1 + i = cnt + (i + 1) := by omega
        rw [this]
        exact hnot
    · rw [if_neg hc]
      exact hc

theorem allocFresh_not_mem (names : List String) (pre : String) :
    allocFresh names pre ∉ names := by
  unfold allocFresh
  by_cases hp : pre ∈ names
  · rw [if_pos hp]
    rcases exists_fresh_suffix names pre with ⟨i, hle, hnot⟩
    refine collisionLoop_fresh names pre (names.length + 1) 0 ⟨i, by omega, ?_⟩
    simpa using hnot
  · rw [if_neg hp]
    exact hp

theorem allocateName_not_mem (constants : List (String × FakeTensor))
    (nameo : Option String) :
    allocateName constants nameo ∉ constants.map (fun p => p.1) := by
  unfold allocateName
  exact allocFresh_not_mem _ _

theorem find?_append_none {α : Type} {l1 l2 : List α} {p : α → Bool}
    (h : l1.find? p = none) : (l1 ++ l2).find? p = l2.find? p := by
  induction l1 with
  | nil => rfl
  | cons a l ih =>
    rw [List.cons_append]
    by_cases ha : p a = true
    · rw [List.find?_cons_of_pos _ ha] at h
      cases h
    · have hna : ¬p a = true := ha
      rw [List.find?_cons_of_neg _ hna] at h
      rw [List.find?_cons_of_neg _ hna]
      exact ih h

theorem find?_append_some {α : Type} {l1 l2 : List α} {p : α → Bool} {x : α}
    (h : l1.find? p = some x) : (l1 ++ l2).find? p = some x := by
  induction l1 with
  | nil => cases h
  | cons a l ih =>
    rw [List.cons_append]
    by_cases ha : p a = true
    · rw [List.find?_cons_of_pos _ ha] at h ⊢
      exact h
    · rw [List.find?_cons_of_neg _ ha] at h ⊢
      exact ih h

theorem assoc_nodup_keys_eq {l : List (String × FakeTensor)}
    (hnd : (l.map (fun p => p.1)).Nodup) {p q : String × FakeTensor}
    (hp : p ∈ l) (hq : q ∈ l) (h : p.1 = q.1) : p = q := by
  induction l with
  | nil => cases hp
  | cons r rs ih =>
    rw [List.map_cons, List.nodup_cons] at hnd
    rcases List.mem_cons.mp hp with rfl | hp2
    · rcases List.mem_cons.mp hq with rfl | hq2
      · rfl
      · exact absurd (h ▸ List.mem_map_of_mem (fun x => x.1) hq2) hnd.1
    · rcases List.mem_cons.mp hq with rfl | hq2
      · exact absurd (h ▸ List.mem_map_of_mem (fun x => x.1) hp2) hnd.1
      · exact ih hnd.2 hp2 hq2

theorem tensorsMatch_values {a v : FakeTensor} (h : tensorsMatch a v = true) :
    a.values = v.values := by
  unfold tensorsMatch at h
  simp only [Bool.and_eq_true, decide_eq_true_eq] at h
  exact h.2

theorem tensorsMatch_self {d : FakeTensor} (h : d.isMkldnn = false) :
    tensorsMatch d d = true := by
  unfold tensorsMatch
  simp [h]

theorem findMatchName_none {constants : List (String × FakeTensor)}
    {d : FakeTensor} (h : findMatchName constants d = none) :
    constants.find? (fun p => tensorsMatch d p.2) = none := by
  unfold findMatchName at h
  exact Option.map_eq_none'.mp h

theorem findMatchName_extend {constants : List (String × FakeTensor)}
    {d : FakeTensor} {n : String} (h : findMatchName constants d = none)
    (hmk : d.isMkldnn = false) :
    findMatchName (constants ++ [(n, d)]) d = some n := by
  unfold findMatchName
  rw [find?_append_none (findMatchName_none h)]
  simp [List.find?_cons, tensorsMatch_self hmk]

/-- The claim of C5, as stated, is false on the code for MKLDNN-layout
tensors: the scan in `add_tensor_constant.allocate` requires
`not data.is_mkldnn`, so two bitwise-identical MKLDNN constants (same
shape, stride, dtype, device, values) receive two distinct names and two
table entries. -/
theorem add_tensor_constant_mkldnn_counterexample :
    (add_tensor_constant [] mkldnnTensor none).1 = "constant0" ∧
    (add_tensor_constant (add_tensor_constant [] mkldnnTensor none).2
        mkldnnTensor none).1 = "constant1" ∧
    (add_tensor_constant (add_tensor_constant [] mkldnnTensor none).2
        mkldnnTensor none).1 ≠ (add_tensor_constant [] mkldnnTensor none).1 ∧
    (add_tensor_constant (add_tensor_constant [] mkldnnTensor none).2
        mkldnnTensor none).2.length = 2 := by
  decide

/-- Claim C5 (amended): for non-MKLDNN tensors, two `add_tensor_constant`
calls with bitwise-identical data return the same name and the second call
adds no table entry; two calls whose data differ in at least one element
return different names (on a table with distinct names, as Python dicts
guarantee). -/
theorem add_tensor_constant_dedup (st : List (String × FakeTensor))
    (d d1 d2 : FakeTensor) (no no2 no3 no4 : Option String)
    (hnd : (st.map (fun p => p.1)).Nodup)
    (hmk : d.isMkldnn = false)
    (hvals : d1.values ≠ d2.values) :
    ((add_tensor_constant (add_tensor_constant st d no).2 d no2).1 =
        (add_tensor_constant st d no).1 ∧
      (add_tensor_constant (add_tensor_constant st d no).2 d no2).2 =
        (add_tensor_constant st d no).2) ∧
    (add_tensor_constant (add_tensor_constant st d1 no3).2 d2 no4).1 ≠
      (add_tensor_constant st d1 no3).1 := by
  constructor
  · cases hf : findMatchName st d with
    | some n =>
      have h1 : add_tensor_constant st d no = (n, st) := by
        unfold add_tensor_constant
        rw [hf]
      have h2 : add_tensor_constant st d no2 = (n, st) := by
        unfold add_tensor_constant
        rw [hf]
      simp only [h1]
      simp only [h2]
      exact ⟨trivial, trivial⟩
    | none =>
      have h1 : add_tensor_constant st d no =
          (allocateName st no, st ++ [(allocateName st no, d)]) := by
        unfold add_tensor_constant
        rw [hf]
      have hf2 := @findMatchName_extend st d (allocateName st no) hf hmk
      have h2 : add_tensor_constant (st ++ [(allocateName st no, d)]) d no2 =
          (allocateName st no, st ++ [(allocateName st no, d)]) := by
        unfold add_tensor_constant
        rw [hf2]
      simp only [h1]
      simp only [h2]
      exact ⟨trivial, trivial⟩
  · cases hf1 : findMatchName st d1 with
    | some n1 =>
      rcases Option.map_eq_some'.mp hf1 with ⟨e1, hfe1, he1n⟩
      have he1mem : e1 ∈ st := List.mem_of_find?_eq_some hfe1
      have he1match := List.find?_some hfe1
      have h1 : add_tensor_constant st d1 no3 = (n1, st) := by
        unfold add_tensor_constant
        rw [hf1]
      cases hf2 : findMatchName st d2 with
      | some n2 =>
        rcases Option.map_eq_some'.mp hf2 with ⟨e2, hfe2, he2n⟩
        have he2mem : e2 ∈ st := List.mem_of_find?_eq_some hfe2
        have he2match := List.find?_some hfe2
        have h2 : add_tensor_constant st d2 no4 = (n2, st) := by
          unfold add_tensor_constant
          rw [hf2]
        simp only [h1, h2]
        intro heq
        have heent : e2 = e1 :=
          assoc_nodup_keys_eq hnd he2mem he1mem (by rw [he2n, he1n, heq])
        refine hvals ?_
        rw [tensorsMatch_values he1match, tensorsMatch_values he2match, heent]
      | none =>
        have h2 : add_tensor_constant st d2 no4 =
            (allocateName st no4, st ++ [(allocateName st no4, d2)]) := by
          unfold add_tensor_constant
          rw [hf2]
        simp only [h1, h2]
        intro heq
        have hm : n1 ∈ st.map (fun p => p.1) :=
          he1n ▸ List.mem_map_of_mem (fun p => p.1) he1mem
        rw [← heq] at hm
        exact allocateName_not_mem st no4 hm
    | none =>
      have h1 : add_tensor_constant st d1 no3 =
          (allocateName st no3, st ++ [(allocateName st no3, d1)]) := by
        unfold add_tensor_constant
        rw [hf1]
      cases hf2 : findMatchName (st ++ [(allocateName st no3, d1)]) d2 with
      | some n2 =>
        rcases Option.map_eq_some'.mp hf2 with ⟨e2, hfe2, he2n⟩
        have he2mem : e2 ∈ st ++ [(allocateName st no3, d1)] :=
          List.mem_of_find?_eq_some hfe2
        have he2match := List.find?_some hfe2
        have h2 : add_tensor_constant (st ++ [(allocateName st no3, d1)]) d2 no4 =
            (n2, st ++ [(allocateName st no3, d1)]) := by
          unfold add_tensor_constant
          rw [hf2]
        simp only [h1, h2]
        intro heq
        rcases List.mem_append.mp he2mem with hin | hlast
        · have hm : e2.1 ∈ st.map (fun p => p.1) :=
            List.mem_map_of_mem (fun p => p.1) hin
          rw [he2n, heq] at hm
          exact allocateName_not_mem st no3 hm
        · have he2 : e2 = (allocateName st no3, d1) := List.mem_singleton.mp hlast
          have hv := tensorsMatch_values he2match
          rw [he2] at hv
          exact hvals hv.symm
      | none =>
        have h2 : add_tensor_constant (st ++ [(allocateName st no3, d1)]) d2 no4 =
            (allocateName (st ++ [(allocateName st no3, d1)]) no4,
              (st ++ [(allocateName st no3, d1)]) ++
                [(allocateName (st ++ [(allocateName st no3, d1)]) no4, d2)]) := by
          unfold add_tensor_constant
          rw [hf2]
        simp only [h1, h2]
        intro heq
        have halloc := allocateName_not_mem (st ++ [(allocateName st no3, d1)]) no4
        refine halloc ?_
        rw [heq, List.map_append]
        exact List.mem_append_right _ (by simp)

/-- Witness for C5 (amended) on concrete non-MKLDNN tensors: adding the
same tensor twice returns the same name with no second entry; adding a
tensor differing in one element returns a different name. -/
theorem add_tensor_constant_dedup_witness :
    (add_tensor_constant (add_tensor_constant [] t1Tensor none).2 t1Tensor none).1 =
      (add_tensor_constant [] t1Tensor none).1 ∧
    (add_tensor_constant (add_tensor_constant [] t1Tensor none).2 t1Tensor none).2 =
      (add_tensor_constant [] t1Tensor none).2 ∧
    (add_tensor_constant (add_tensor_constant [] t1Tensor none).2 t2Tensor none).1 ≠
      (add_tensor_constant [] t1Tensor none).1 := by
  have h := add_tensor_constant_dedup [] t1Tensor t1Tensor t2Tensor
    none none none none (by simp) (by decide) (by decide)
  exact ⟨h.1.1, h.1.2, h.2⟩
